import Mathlib

/-!
Shallow embedding of the utilities defined in the two notebooks of this
repository: `src/decorators.ipynb` (the `retry`, `log` and `lru_cache`
wrappers) and `src/context_manager.ipynb` (the `db_connection`, `open_file`,
`AsyncWeatherFetcher` and `async_http_client` scoped-resource wrappers).

Effects are made explicit: a wrapped callable is a function returning
`Except`, and each wrapper returns its outcome together with a trace of the
observable events (invocations, log prints, sleeps, commits, rollbacks,
closes) in the order in which they happen.  Resource handles carry no
behaviour of their own in the notebooks, so they are embedded as `Nat`
tokens.
-/

deriving instance DecidableEq for Except

/-- Python exceptions, distinguished exactly as far as the notebooks
distinguish them: `sqlite3.Error` (the only class caught by
`db_connection`'s `except sqlite3.Error:` clause) versus any other
`Exception`. -/
inductive PyExc where
  | sqliteError (code : Nat)
  | otherError (code : Nat)
deriving DecidableEq

/-- Whether an exception is a `sqlite3.Error`, i.e. matched by the
`except sqlite3.Error:` clause of `db_connection`. -/
def PyExc.isSqliteError : PyExc → Bool
  | .sqliteError _ => true
  | .otherError _ => false

/-! ## The `retry` decorator (`src/decorators.ipynb`, cell 3)

```python
def retry(tries: int = 3, delay: float = 1.0) -> Callable:
    def decorator(func: Callable) -> Callable:
        @wraps(func)
        def wrapped(*args, **kwargs):
            last_exception = None
            for attempt in range(tries):
                try:
                    return func(*args, **kwargs)
                except Exception as e:
                    last_exception = e
                    print(f...)
                    if attempt < tries - 1:
                        sleep(delay)
            raise last_exception
        return wrapped
    return decorator
```

The wrapped callable is embedded as `f : Nat → Except Exc A`, giving the
outcome of its k-th invocation (0-indexed); the loop over
`range(tries)` becomes recursion over the list of attempt indices. -/

/-- One observable event of the `retry` wrapper: an invocation of the
underlying callable at a given attempt index, the failure print for that
attempt, or a `sleep(delay)` call. -/
inductive RetryEvent (Exc : Type) where
  | call (attempt : Nat)
  | logFail (attempt : Nat) (e : Exc)
  | sleepDelay
deriving DecidableEq

/-- Whether a retry event is an invocation of the underlying callable. -/
def RetryEvent.isCall {Exc : Type} : RetryEvent Exc → Bool
  | .call _ => true
  | _ => false

/-- Whether a retry event is a `sleep(delay)` call. -/
def RetryEvent.isSleep {Exc : Type} : RetryEvent Exc → Bool
  | .sleepDelay => true
  | _ => false

/-- Outcome of one call of the wrapped callable produced by `retry`:
the value returned, or the exception finally raised by
`raise last_exception` (which is `none` when no attempt ever ran), together
with the chronological event trace. -/
structure RetryTrace (A Exc : Type) where
  result : Except (Option Exc) A
  events : List (RetryEvent Exc)
deriving DecidableEq

/-- The `for attempt in range(tries)` loop of `wrapped`, over the list of
remaining attempt indices, carrying `last_exception`.  On success the value
is returned at once; on failure the attempt is logged and, when the attempt
is not the final one (`attempt < tries - 1`), a `sleep(delay)` happens
before the next attempt; when the attempts are exhausted,
`raise last_exception` raises the carried value. -/
def retryAttempts {A Exc : Type} (f : Nat → Except Exc A) (tries : Nat) :
    List Nat → Option Exc → RetryTrace A Exc
  | [], last => ⟨.error last, []⟩
  | attempt :: rest, _last =>
    match f attempt with
    | .ok v => ⟨.ok v, [.call attempt]⟩
    | .error e =>
      let r := retryAttempts f tries rest (some e)
      ⟨r.result,
        .call attempt :: .logFail attempt e ::
          ((if attempt < tries - 1 then [.sleepDelay] else []) ++ r.events)⟩

/-- The callable produced by `retry(tries, delay)(func)`: run the attempt
loop over `range(tries)` with `last_exception = None`.  The delay value
does not influence control flow; each `sleep(delay)` call appears in the
trace as a `sleepDelay` event. -/
def retry_wrapped {A Exc : Type} (tries : Nat) (f : Nat → Except Exc A) :
    RetryTrace A Exc :=
  retryAttempts f tries (List.range tries) none

/-! ## The `log` decorator (`src/decorators.ipynb`, cell 5)

```python
def log(coroutine: Coroutine) -> Callable:
    @wraps(coroutine)
    async def wrapper(*args, **kwargs):
        print start line
        result = await coroutine(*args, **kwargs)
        print result line
        return result
    return wrapper
```
-/

/-- Observable events of the `log` wrapper: the start print (callable
identity and arguments), the awaited run of the wrapped coroutine, and the
result print. -/
inductive LogEvent (B : Type) where
  | startLog
  | run
  | resultLog (r : B)
deriving DecidableEq

/-- The `wrapper` coroutine produced by `log(coroutine)`: print the start
line, await the coroutine, and if it completes print its result and return
it unchanged; a failure of the coroutine propagates with no catch, so the
result print does not happen. -/
def log {A B : Type} (f : A → Except PyExc B) (a : A) :
    List (LogEvent B) × Except PyExc B :=
  match f a with
  | .ok r => ([.startLog, .run, .resultLog r], .ok r)
  | .error e => ([.startLog, .run], .error e)

/-! ## The memoizing wrapper (`src/decorators.ipynb`, cell 7)

```python
@lru_cache
def calculations():
    time.sleep(3)
    return True
```

The wrapper itself is `functools.lru_cache` from the standard library; its
implementation is not part of `src/`, so it is modelled from the spec. -/

/-- Dictionary lookup in the cache, embedded as association-list lookup. -/
def memoLookup {A B : Type} [DecidableEq A] : List (A × B) → A → Option B
  | [], _ => none
  | (k, v) :: rest, a => if k = a then some v else memoLookup rest a

/-- State of one run of a memoized callable over a sequence of invocations:
the values returned in order, the final cache, and the chronological list
of arguments on which the underlying callable actually executed. -/
structure MemoRun (A B : Type) where
  results : List B
  cache : List (A × B)
  execs : List A
deriving DecidableEq

/-- Modelled from the spec: the memoizing wrapper (`functools.lru_cache`,
standard library, absent from `src/`) as the spec describes it — "on
invocation, if the argument set has been seen before, returns the cached
result immediately without re-invoking the underlying callable; otherwise
invokes the callable, stores the result keyed by the argument set, and
returns it", with the cache retained and never evicted.  This processes a
whole sequence of invocations, threading the cache. -/
def lru_cache_run {A B : Type} [DecidableEq A] (f : A → B) :
    List A → List (A × B) → MemoRun A B
  | [], cache => ⟨[], cache, []⟩
  | a :: rest, cache =>
    match memoLookup cache a with
    | some b =>
      let r := lru_cache_run f rest cache
      ⟨b :: r.results, r.cache, r.execs⟩
    | none =>
      let b := f a
      let r := lru_cache_run f rest ((a, b) :: cache)
      ⟨b :: r.results, r.cache, a :: r.execs⟩

/-- Modelled from the spec: a fresh memoized callable (empty cache, as when
`@lru_cache` is applied) run over a sequence of invocations. -/
def lru_cache {A B : Type} [DecidableEq A] (f : A → B) (argsSeq : List A) :
    MemoRun A B :=
  lru_cache_run f argsSeq []

/-- The cache agrees with the wrapped callable on every key it holds. -/
def memoConsistent {A B : Type} [DecidableEq A] (f : A → B)
    (cache : List (A × B)) : Prop :=
  ∀ a b, memoLookup cache a = some b → b = f a

/-! ## `db_connection` (`src/context_manager.ipynb`, cell 2)

```python
@contextmanager
def db_connection(db_path):
    conn = None
    try:
        conn = sqlite3.connect(db_path)
        yield conn
        conn.commit()
    except sqlite3.Error:
        if conn:
            conn.rollback()
        raise
    finally:
        if conn:
            conn.close()
```

Acquisition (`sqlite3.connect`) is a parameter that either yields a handle
or raises; the caller-supplied `with`-block is a function of the handle.
`commit`, `rollback` and `close` are recorded as events. -/

/-- Observable operations on the database connection. -/
inductive DbEvent where
  | commit
  | rollback
  | close
deriving DecidableEq

/-- Outcome of one `with db_connection(...)` statement: the connection
events in order, and the value or exception delivered to the caller. -/
structure DbRun where
  events : List DbEvent
  outcome : Except PyExc Unit
deriving DecidableEq

/-- One execution of `with db_connection(path) as conn: block(conn)`.
If acquisition raises, `conn` is still `None`, so neither branch of the
guarded rollback/close runs and the exception propagates.  If the block
returns, `conn.commit()` then the `finally` close run.  If the block
raises a `sqlite3.Error`, the `except sqlite3.Error:` clause rolls back
and re-raises, then the `finally` close runs; any other exception skips
that clause, so only the `finally` close runs before it propagates. -/
def db_connection (acquire : Except PyExc Nat)
    (block : Nat → Except PyExc Unit) : DbRun :=
  match acquire with
  | .error e => ⟨[], .error e⟩
  | .ok conn =>
    match block conn with
    | .ok _ => ⟨[.commit, .close], .ok ()⟩
    | .error e =>
      if e.isSqliteError then ⟨[.rollback, .close], .error e⟩
      else ⟨[.close], .error e⟩

/-! ## `open_file` (`src/context_manager.ipynb`, cell 4)

```python
@contextmanager
def open_file(path, mode):
    file = None
    try:
        file = open(path, mode)
        yield file
    finally:
        if file:
            file.close()
```
-/

/-- Outcome of one `with open_file(...)` statement: how many times
`file.close()` ran, and the value or exception delivered to the caller. -/
structure FileRun where
  closes : Nat
  outcome : Except PyExc Unit
deriving DecidableEq

/-- One execution of `with open_file(path, mode) as file: block(file)`.
If `open` raises, `file` is still `None`, the guarded close is skipped and
the exception propagates; otherwise the single `finally` close runs on
every exit path of the block. -/
def open_file (acquire : Except PyExc Nat)
    (block : Nat → Except PyExc Unit) : FileRun :=
  match acquire with
  | .error e => ⟨0, .error e⟩
  | .ok file =>
    match block file with
    | .ok _ => ⟨1, .ok ()⟩
    | .error e => ⟨1, .error e⟩

/-! ## `AsyncWeatherFetcher` (`src/context_manager.ipynb`, cell 6)

```python
async def __aenter__(self):
    self.session = aiohttp.ClientSession()
    url = ...
    self.response = await self.session.get(url)
    return self

async def __aexit__(self, exc_type, exc, tb):
    if self.response:
        self.response.close()
    if self.session:
        await self.session.close()
    if exc_type:
        print error line
```

`async with` calls `__aexit__` only when `__aenter__` returned; if the
`session.get` await raises, `__aexit__` is never invoked.  Session
construction is a plain object construction and is embedded as always
succeeding; the `get` step is the fallible acquisition parameter. -/

/-- Observable events of one `async with AsyncWeatherFetcher(...)`
invocation. -/
inductive AwEvent where
  | sessionOpen
  | responseGet
  | responseClose
  | sessionClose
  | logError (e : PyExc)
deriving DecidableEq

/-- Outcome of one `async with AsyncWeatherFetcher(...)` statement. -/
structure AwRun where
  events : List AwEvent
  outcome : Except PyExc Unit
deriving DecidableEq

/-- One execution of `async with AsyncWeatherFetcher(...) as fetcher:
block(fetcher)`.  The session is constructed, then the request is awaited:
if it raises, `__aenter__` raises and `__aexit__` is not called, so nothing
is closed.  Otherwise the block runs and `__aexit__` closes the response,
then the session, and on a block failure prints the error after both
closes; it returns `None`, so the exception propagates. -/
def AsyncWeatherFetcher_run (getResult : Except PyExc Nat)
    (block : Nat → Except PyExc Unit) : AwRun :=
  match getResult with
  | .error e => ⟨[.sessionOpen], .error e⟩
  | .ok resp =>
    match block resp with
    | .ok _ =>
      ⟨[.sessionOpen, .responseGet, .responseClose, .sessionClose], .ok ()⟩
    | .error e =>
      ⟨[.sessionOpen, .responseGet, .responseClose, .sessionClose,
        .logError e], .error e⟩

/-! ## `async_http_client` (`src/context_manager.ipynb`, cell 7)

```python
@asynccontextmanager
async def async_http_client(url):
    session = aiohttp.ClientSession()
    try:
        print opening line
        yield session
        print finished line
    except Exception as e:
        print error line
        raise
    finally:
        await session.close()
        print closed line
```
-/

/-- Observable events of one `async with async_http_client(...)`
invocation: the three prints, the error print, and the session close. -/
inductive HcEvent where
  | openLog
  | successLog
  | errorLog (e : PyExc)
  | sessionClose
  | closedLog
deriving DecidableEq

/-- Outcome of one `async with async_http_client(...)` statement. -/
structure HcRun where
  events : List HcEvent
  outcome : Except PyExc Unit
deriving DecidableEq

/-- One execution of `async with async_http_client(url) as client:
block(client)`.  On a block failure the `except Exception` clause prints
the error and re-raises; on either path the `finally` clause awaits the
session close and prints, and only then does the exception, if any,
reach the caller. -/
def async_http_client (session : Nat)
    (block : Nat → Except PyExc Unit) : HcRun :=
  match block session with
  | .ok _ => ⟨[.openLog, .successLog, .sessionClose, .closedLog], .ok ()⟩
  | .error e => ⟨[.openLog, .errorLog e, .sessionClose, .closedLog], .error e⟩

/-- The block of events one failed attempt of the `retry` wrapper
contributes: the invocation, the failure print, and — when the attempt is
not the final one — the `sleep(delay)` call. -/
def failChunk {Exc : Type} (tries : Nat) (ferr : Nat → Exc) (a : Nat) :
    List (RetryEvent Exc) :=
  .call a :: .logFail a (ferr a) ::
    (if a < tries - 1 then [.sleepDelay] else [])

/-! ## Theorems -/

/-- Unfolding one failing attempt of the loop. -/
theorem retryAttempts_cons_error {A Exc : Type} (f : Nat → Except Exc A)
    (tries attempt : Nat) (rest : List Nat) (last : Option Exc) (e : Exc)
    (h : f attempt = .error e) :
    retryAttempts f tries (attempt :: rest) last =
      ⟨(retryAttempts f tries rest (some e)).result,
        .call attempt :: .logFail attempt e ::
          ((if attempt < tries - 1 then [.sleepDelay] else []) ++
            (retryAttempts f tries rest (some e)).events)⟩ := by
  simp [retryAttempts, h]

/-- Unfolding one succeeding attempt of the loop. -/
theorem retryAttempts_cons_ok {A Exc : Type} (f : Nat → Except Exc A)
    (tries attempt : Nat) (rest : List Nat) (last : Option Exc) (v : A)
    (h : f attempt = .ok v) :
    retryAttempts f tries (attempt :: rest) last = ⟨.ok v, [.call attempt]⟩ := by
  simp [retryAttempts, h]

/-- Running the loop over a prefix of attempts that all fail: the prefix
contributes its failure chunks to the trace, updates `last_exception` to
the prefix's last failure, and the loop continues on the remaining
attempts. -/
theorem retryAttempts_all_fail {A Exc : Type} (f : Nat → Except Exc A)
    (tries : Nat) (ferr : Nat → Exc) :
    ∀ (L₁ L₂ : List Nat) (last : Option Exc),
      (∀ a ∈ L₁, f a = .error (ferr a)) →
      retryAttempts f tries (L₁ ++ L₂) last =
        ⟨(retryAttempts f tries L₂
            (L₁.getLast?.elim last (fun a => some (ferr a)))).result,
         L₁.flatMap (failChunk tries ferr) ++
           (retryAttempts f tries L₂
             (L₁.getLast?.elim last (fun a => some (ferr a)))).events⟩ := by
  intro L₁
  induction L₁ with
  | nil => intro L₂ last _h; simp
  | cons a t ih =>
    intro L₂ last h
    have ha : f a = .error (ferr a) := h a (by simp)
    have h' : ∀ x ∈ t, f x = .error (ferr x) := fun x hx => h x (by simp [hx])
    have hlast : (a :: t).getLast?.elim last (fun x => some (ferr x))
        = t.getLast?.elim (some (ferr a)) (fun x => some (ferr x)) := by
      cases t with
      | nil => simp
      | cons b u =>
        obtain ⟨y, hy⟩ := Option.isSome_iff_exists.mp
          (List.getLast?_isSome.mpr (List.cons_ne_nil b u))
        rw [List.getLast?_cons_cons, hy]
        rfl
    rw [List.cons_append, retryAttempts_cons_error f tries a (t ++ L₂) last
      (ferr a) ha, ih L₂ (some (ferr a)) h', hlast]
    simp [failChunk, List.append_assoc]

/-- Splitting `List.range m` at any `k ≤ m` into `range k` followed by
the interval from `k` to `m`. -/
theorem range_split (k m : Nat) (h : k ≤ m) :
    List.range m = List.range k ++ List.range' k (m - k) := by
  have h2 := List.range'_append 0 k (m - k) 1
  simp at h2
  rw [List.range_eq_range', List.range_eq_range', h2,
    Nat.sub_add_cancel h]

/-- C5: for any `tries ≥ 1` and any delay, the wrapper's attempt policy.
If the first `k` invocations fail and the `(k+1)`-st succeeds (with
`k < tries`), the success value is returned immediately: the trace is the
`k` failure chunks — each an invocation, a failure print, and a
`sleep(delay)` (every such failed attempt precedes the final allowed
attempt) — followed by the successful invocation alone, so no further
attempt occurs.  If every attempt fails, the raised exception is exactly
the most recent (`tries - 1`-st) failure, and the trace is one failure
chunk per attempt — each failure reported via its print, with a
`sleep(delay)` after every failed attempt except the final one, thanks to
the `attempt < tries - 1` guard inside `failChunk`. -/
theorem retry_general_policy {A Exc : Type} (tries : Nat)
    (htries : 1 ≤ tries) (f : Nat → Except Exc A) (ferr : Nat → Exc) :
    (∀ k v, k < tries → (∀ i, i < k → f i = .error (ferr i)) →
      f k = .ok v →
      retry_wrapped tries f =
        ⟨.ok v, (List.range k).flatMap (failChunk tries ferr) ++
          [.call k]⟩) ∧
    ((∀ i, i < tries → f i = .error (ferr i)) →
      retry_wrapped tries f =
        ⟨.error (some (ferr (tries - 1))),
         (List.range tries).flatMap (failChunk tries ferr)⟩) := by
  constructor
  · intro k v hk hfail hok
    have hsplit := range_split k tries (Nat.le_of_lt hk)
    have hall : ∀ a ∈ List.range k, f a = .error (ferr a) := by
      intro a ha
      exact hfail a (List.mem_range.mp ha)
    rw [retry_wrapped, hsplit,
      retryAttempts_all_fail f tries ferr (List.range k)
        (List.range' k (tries - k)) none hall]
    have hpos : tries - k = (tries - k - 1) + 1 := by omega
    rw [hpos, List.range'_succ,
      retryAttempts_cons_ok f tries k _ _ v hok]
  · intro hfail
    have hall : ∀ a ∈ List.range tries, f a = .error (ferr a) := by
      intro a ha
      exact hfail a (List.mem_range.mp ha)
    have hsplit : List.range tries = List.range tries ++ [] := by simp
    rw [retry_wrapped, hsplit,
      retryAttempts_all_fail f tries ferr (List.range tries) [] none hall]
    have hlast : (List.range tries).getLast? = some (tries - 1) := by
      obtain ⟨m, rfl⟩ : ∃ m, tries = m + 1 :=
        ⟨tries - 1, (Nat.sub_add_cancel htries).symm⟩
      rw [List.range_succ, List.getLast?_concat]
      simp
    rw [hlast]
    simp [retryAttempts]

/-- C5 witness: the theorem's all-fail part at `tries = 3` with the
callable failing with error `i` on its `i`-th invocation. -/
theorem retry_general_policy_witness :
    retry_wrapped 3 (fun i => (.error i : Except Nat Nat)) =
      ⟨.error (some 2), [.call 0, .logFail 0 0, .sleepDelay,
                         .call 1, .logFail 1 1, .sleepDelay,
                         .call 2, .logFail 2 2]⟩ := by
  rw [(retry_general_policy 3 (by decide)
    (fun i => (.error i : Except Nat Nat)) id).2 (fun i _ => rfl)]
  decide

/-- Extending the cache with a value of the wrapped callable preserves
agreement between cache and callable. -/
theorem memoConsistent_cons {A B : Type} [DecidableEq A] (f : A → B)
    (cache : List (A × B)) (a : A) (h : memoConsistent f cache) :
    memoConsistent f ((a, f a) :: cache) := by
  intro x b hx
  by_cases hax : a = x
  · subst hax
    simp [memoLookup] at hx
    exact hx.symm
  · simp [memoLookup, hax] at hx
    exact h x b hx

/-- Invariant of a memoized run started from any cache agreeing with the
callable: the returned values are the callable's values in order, the
final cache answers every argument seen during the run (and is otherwise
the initial cache), and the underlying callable executed on an argument
exactly once when it was not already cached and was invoked at least
once — never more. -/
theorem lru_cache_run_spec {A B : Type} [DecidableEq A] (f : A → B) :
    ∀ (L : List A) (cache : List (A × B)), memoConsistent f cache →
      (lru_cache_run f L cache).results = L.map f ∧
      (∀ x, memoLookup (lru_cache_run f L cache).cache x =
            if x ∈ L then some (f x) else memoLookup cache x) ∧
      (∀ x, (lru_cache_run f L cache).execs.count x =
            if (memoLookup cache x).isNone ∧ x ∈ L then 1 else 0) := by
  intro L
  induction L with
  | nil => intro cache _hc; simp [lru_cache_run]
  | cons a rest ih =>
    intro cache hc
    cases hla : memoLookup cache a with
    | some b =>
      have hb : b = f a := hc a b hla
      obtain ⟨ihres, ihcache, ihexec⟩ := ih cache hc
      refine ⟨?_, ?_, ?_⟩
      · simp [lru_cache_run, hla, ihres, hb]
      · intro x
        by_cases hx : x = a
        · subst hx
          by_cases hmem : x ∈ rest <;>
            simp [lru_cache_run, hla, ihcache, hmem, hb]
        · have : (x ∈ a :: rest) = (x ∈ rest) := by simp [hx]
          simp [lru_cache_run, hla, ihcache, this]
      · intro x
        by_cases hx : x = a
        · subst hx
          simp [lru_cache_run, hla, ihexec]
        · have hev : (lru_cache_run f (a :: rest) cache).execs
              = (lru_cache_run f rest cache).execs := by
            simp [lru_cache_run, hla]
          rw [hev, ihexec x]
          simp only [List.mem_cons, hx, false_or]
    | none =>
      have hc' : memoConsistent f ((a, f a) :: cache) :=
        memoConsistent_cons f cache a hc
      obtain ⟨ihres, ihcache, ihexec⟩ := ih ((a, f a) :: cache) hc'
      refine ⟨?_, ?_, ?_⟩
      · simp [lru_cache_run, hla, ihres]
      · intro x
        by_cases hx : x = a
        · subst hx
          by_cases hmem : x ∈ rest <;>
            simp [lru_cache_run, hla, ihcache, hmem, memoLookup]
        · have hmm : (x ∈ a :: rest) = (x ∈ rest) := by simp [hx]
          have hne : a ≠ x := fun hax => hx hax.symm
          simp [lru_cache_run, hla, ihcache, hmm, memoLookup, hne]
      · intro x
        by_cases hx : x = a
        · subst hx
          have h0 : (lru_cache_run f rest ((x, f x) :: cache)).execs.count x
              = 0 := by
            rw [ihexec x]
            simp [memoLookup]
          simp [lru_cache_run, hla, List.count_cons, h0]
        · have hev : (lru_cache_run f (a :: rest) cache).execs
              = a :: (lru_cache_run f rest ((a, f a) :: cache)).execs := by
            simp [lru_cache_run, hla]
          have hne : ¬a = x := fun hax => hx hax.symm
          rw [hev, List.count_cons, ihexec x]
          simp only [memoLookup, hne, beq_iff_eq, if_false, ite_false,
            List.mem_cons, hx, false_or, add_zero]

/-- C1: the memoizing wrapper computes each distinct argument set at most
once across any sequence of invocations — exactly once for an argument
set that is actually invoked, however many times it recurs — every
returned value is the single computed value for its argument set, and the
cache retains every computed entry to the end of the run (no eviction or
invalidation). -/
theorem lru_cache_memoizes {A B : Type} [DecidableEq A] (f : A → B)
    (argsSeq : List A) (a : A) :
    (lru_cache f argsSeq).results = argsSeq.map f ∧
    (lru_cache f argsSeq).execs.count a =
      (if a ∈ argsSeq then 1 else 0) ∧
    memoLookup (lru_cache f argsSeq).cache a =
      (if a ∈ argsSeq then some (f a) else none) := by
  have hc : memoConsistent f ([] : List (A × B)) := by
    intro x b hx
    simp [memoLookup] at hx
  obtain ⟨hres, hcache, hexec⟩ := lru_cache_run_spec f argsSeq [] hc
  refine ⟨hres, ?_, ?_⟩
  · rw [lru_cache, hexec a]
    simp [memoLookup]
  · rw [lru_cache, hcache a]
    simp [memoLookup]

/-- C10: constructing the retry wrapper with `tries = 0` skips the loop
entirely: the underlying callable is never invoked, no value is returned,
and `raise last_exception` raises the never-assigned sentinel `None`
(`none`), a failure unrelated to the wrapped callable. -/
theorem retry_zero_tries {A Exc : Type} (f : Nat → Except Exc A) :
    retry_wrapped 0 f = ⟨.error none, []⟩ :=
  rfl

/-- C9: for both synchronous scoped wrappers, an acquisition failure
performs no commit, rollback or close on the never-acquired handle and
propagates to the caller unchanged. -/
theorem no_cleanup_on_acquisition_failure (e : PyExc)
    (dblock fblock : Nat → Except PyExc Unit) :
    db_connection (.error e) dblock = ⟨[], .error e⟩ ∧
    open_file (.error e) fblock = ⟨0, .error e⟩ :=
  ⟨rfl, rfl⟩

/-- C8: once the file is acquired, `open_file` closes the handle exactly
once — never zero times, never twice — whether the block returns normally
or raises, and delivers the block's outcome unchanged. -/
theorem open_file_closes_exactly_once (file : Nat)
    (block : Nat → Except PyExc Unit) :
    (open_file (.ok file) block).closes = 1 ∧
    (open_file (.ok file) block).outcome = block file := by
  constructor
  · cases h : block file <;> simp [open_file, h]
  · cases h : block file <;> simp [open_file, h]

/-- C2 counterexample: a block that raises an exception that is not a
`sqlite3.Error` gets no rollback — only the `finally` close runs — so
"a rollback is performed before the connection is closed" fails for this
failing block, even though the close and the re-raise do happen. -/
theorem db_connection_no_rollback_on_foreign_error :
    (db_connection (.ok 0) (fun _ => .error (.otherError 13))).outcome
        = .error (.otherError 13) ∧
    DbEvent.rollback ∉
      (db_connection (.ok 0) (fun _ => .error (.otherError 13))).events := by
  decide

/-- C2 amended: for every failing block, the connection is closed on the
failure path and the original exception is re-raised after cleanup, never
swallowed; a rollback is performed before the close exactly when the
exception is a `sqlite3.Error` (the only class the wrapper catches), and
is skipped for any other exception. -/
theorem db_connection_failure_cleanup (conn : Nat)
    (block : Nat → Except PyExc Unit) (e : PyExc)
    (hb : block conn = .error e) :
    (db_connection (.ok conn) block).outcome = .error e ∧
    DbEvent.close ∈ (db_connection (.ok conn) block).events ∧
    (e.isSqliteError = true →
      (db_connection (.ok conn) block).events = [.rollback, .close]) ∧
    (e.isSqliteError = false →
      (db_connection (.ok conn) block).events = [.close]) := by
  cases e <;> simp [db_connection, hb, PyExc.isSqliteError]

/-- C2 witness: the amended theorem applied to a block raising a
`sqlite3.Error`. -/
theorem db_connection_failure_cleanup_witness :
    (db_connection (.ok 0) (fun _ => .error (.sqliteError 5))).events
        = [.rollback, .close] ∧
    (db_connection (.ok 0) (fun _ => .error (.sqliteError 5))).outcome
        = .error (.sqliteError 5) := by
  have h := db_connection_failure_cleanup 0
    (fun _ => .error (.sqliteError 5)) (.sqliteError 5) rfl
  exact ⟨h.2.2.1 rfl, h.1⟩

/-- C3 counterexample: when acquisition fails at the request step
(`await self.session.get(url)` raises inside `__aenter__`), `__aexit__`
is never invoked, so the already-created session is not closed — the
claim's "failure during acquisition" exit path does not close the
session. -/
theorem AsyncWeatherFetcher_acquisition_no_close :
    (AsyncWeatherFetcher_run (.error (.otherError 2))
        (fun _ => .ok ())).outcome = .error (.otherError 2) ∧
    AwEvent.sessionClose ∉
      (AsyncWeatherFetcher_run (.error (.otherError 2))
        (fun _ => .ok ())).events := by
  decide

/-- C3 amended: on normal completion and on failure inside the block, both
the response and the session are closed, in reverse-acquisition order
(response before session), and on a block failure the error is printed
after both closes and the failure then propagates to the caller; but when
acquisition fails at the request step, `__aexit__` is not invoked: the
session stays open and the acquisition failure propagates. -/
theorem AsyncWeatherFetcher_exit_paths (getResult : Except PyExc Nat)
    (block : Nat → Except PyExc Unit) :
    (∀ e, getResult = .error e →
      AsyncWeatherFetcher_run getResult block = ⟨[.sessionOpen], .error e⟩) ∧
    (∀ resp, getResult = .ok resp → block resp = .ok () →
      AsyncWeatherFetcher_run getResult block =
        ⟨[.sessionOpen, .responseGet, .responseClose, .sessionClose],
         .ok ()⟩) ∧
    (∀ resp e, getResult = .ok resp → block resp = .error e →
      AsyncWeatherFetcher_run getResult block =
        ⟨[.sessionOpen, .responseGet, .responseClose, .sessionClose,
          .logError e], .error e⟩) := by
  refine ⟨fun e he => ?_, fun resp hg hb => ?_, fun resp e hg hb => ?_⟩
  · simp [AsyncWeatherFetcher_run, he]
  · simp [AsyncWeatherFetcher_run, hg, hb]
  · simp [AsyncWeatherFetcher_run, hg, hb]

/-- C3 witness: the amended theorem applied to a successful request and a
failing block. -/
theorem AsyncWeatherFetcher_exit_paths_witness :
    AsyncWeatherFetcher_run (.ok 7) (fun _ => .error (.otherError 3)) =
      ⟨[.sessionOpen, .responseGet, .responseClose, .sessionClose,
        .logError (.otherError 3)], .error (.otherError 3)⟩ :=
  (AsyncWeatherFetcher_exit_paths (.ok 7)
    (fun _ => .error (.otherError 3))).2.2 7 (.otherError 3) rfl rfl

/-- C6: the `log` wrapper always returns the wrapped coroutine's outcome
unchanged; on completion the trace is exactly one start print, the run,
then exactly one result print; on failure the trace stops after the run —
no catch, no result print, the failure propagates unmodified. -/
theorem log_preserves_result {A B : Type} (f : A → Except PyExc B) (a : A) :
    (log f a).2 = f a ∧
    (∀ r, f a = .ok r →
      log f a = ([.startLog, .run, .resultLog r], .ok r)) ∧
    (∀ e, f a = .error e →
      log f a = ([.startLog, .run], .error e)) := by
  refine ⟨?_, fun r hr => by simp [log, hr], fun e he => by simp [log, he]⟩
  cases h : f a <;> simp [log, h]

/-- C6 witness: the theorem applied to an identity-like coroutine at a
concrete argument. -/
theorem log_preserves_result_witness :
    log (fun n : Nat => (.ok n : Except PyExc Nat)) 5 =
      ([.startLog, .run, .resultLog 5], .ok 5) :=
  (log_preserves_result (fun n : Nat => (.ok n : Except PyExc Nat)) 5).2.1
    5 rfl

/-- C7: for every block failure inside `async_http_client`, the session is
closed exactly once — the trace holds precisely one `sessionClose`, after
the error print — and the original failure reaches the caller only after
the `finally` close has completed, never swallowed. -/
theorem async_http_client_close_once_on_failure (session : Nat)
    (block : Nat → Except PyExc Unit) (e : PyExc)
    (hb : block session = .error e) :
    (async_http_client session block).events
        = [.openLog, .errorLog e, .sessionClose, .closedLog] ∧
    (async_http_client session block).events.count HcEvent.sessionClose
        = 1 ∧
    (async_http_client session block).outcome = .error e := by
  refine ⟨by simp [async_http_client, hb], ?_, by simp [async_http_client, hb]⟩
  simp [async_http_client, hb, List.count_cons, List.count_nil]

/-- C7 witness: the theorem applied to a concrete failing block. -/
theorem async_http_client_close_once_on_failure_witness :
    (async_http_client 0
        (fun _ => .error (.otherError 4))).events.count
      HcEvent.sessionClose = 1 :=
  (async_http_client_close_once_on_failure 0
    (fun _ => .error (.otherError 4)) (.otherError 4)
    rfl).2.1

/-- C4: with `tries = 3` (and the delay irrelevant to control flow), a
callable failing on exactly its first two invocations and succeeding on
the third returns the success value after exactly three invocations, and
a callable failing on all three attempts raises the third attempt's
failure after exactly three invocations; the full traces show the two
failure prints (plus the third on the all-fail path) and the sleeps after
the non-final failed attempts only. -/
theorem retry_three_attempts {A Exc : Type} (f : Nat → Except Exc A)
    (e0 e1 : Exc) :
    (∀ v, f 0 = .error e0 → f 1 = .error e1 → f 2 = .ok v →
      retry_wrapped 3 f =
        ⟨.ok v, [.call 0, .logFail 0 e0, .sleepDelay,
                 .call 1, .logFail 1 e1, .sleepDelay, .call 2]⟩ ∧
      (retry_wrapped 3 f).events.countP RetryEvent.isCall = 3) ∧
    (∀ e2, f 0 = .error e0 → f 1 = .error e1 → f 2 = .error e2 →
      retry_wrapped 3 f =
        ⟨.error (some e2), [.call 0, .logFail 0 e0, .sleepDelay,
                            .call 1, .logFail 1 e1, .sleepDelay,
                            .call 2, .logFail 2 e2]⟩ ∧
      (retry_wrapped 3 f).events.countP RetryEvent.isCall = 3) := by
  have hrange : List.range 3 = [0, 1, 2] := by decide
  constructor
  · intro v h0 h1 h2
    have ht : retry_wrapped 3 f =
        ⟨.ok v, [.call 0, .logFail 0 e0, .sleepDelay,
                 .call 1, .logFail 1 e1, .sleepDelay, .call 2]⟩ := by
      simp [retry_wrapped, hrange, retryAttempts, h0, h1, h2]
    refine ⟨ht, ?_⟩
    rw [ht]
    simp [List.countP_cons, RetryEvent.isCall]
  · intro e2 h0 h1 h2
    have ht : retry_wrapped 3 f =
        ⟨.error (some e2), [.call 0, .logFail 0 e0, .sleepDelay,
                            .call 1, .logFail 1 e1, .sleepDelay,
                            .call 2, .logFail 2 e2]⟩ := by
      simp [retry_wrapped, hrange, retryAttempts, h0, h1, h2]
    refine ⟨ht, ?_⟩
    rw [ht]
    simp [List.countP_cons, RetryEvent.isCall]

/-- C4 witness: the theorem applied to a callable over `Nat` failing on its
first two invocations with errors 10 and 11 and succeeding with 42 on the
third. -/
theorem retry_three_attempts_witness :
    retry_wrapped 3
        (fun k => if k < 2 then (.error (10 + k) : Except Nat Nat)
                  else .ok 42) =
      ⟨.ok 42, [.call 0, .logFail 0 10, .sleepDelay,
                .call 1, .logFail 1 11, .sleepDelay, .call 2]⟩ :=
  ((retry_three_attempts
      (fun k => if k < 2 then (.error (10 + k) : Except Nat Nat)
                else .ok 42) 10 11).1 42 rfl rfl rfl).1
